import Mathlib

/-!
Shallow embedding of the zaiko-viewer inventory application (src/app.py):
the movement-log data model, windowed file loading, keyword filtering,
sales aggregation, current-stock lookup, the image-master map, and the
reorder (restock) calculation.  Float arithmetic of the source is modelled
with exact rationals; pandas/numpy `.round()` is modelled as round half to
even.
-/

/-- One canonical movement-log row (one line of a tempostar CSV extract),
after `load_tempostar_data` has coerced 増減値 (`delta`) and 変動後
(`stockAfter`) to integers. -/
structure Record where
  code : String
  baseCode : String
  name : String
  attr1 : String
  attr2 : String
  delta : Int
  stockAfter : Int
  reason : String
deriving DecidableEq, Repr

/-- One extract file `tempostar_stock_YYYYMMDD.csv`: its filename date
(as an ordinal day number) and its rows in file order.  The file list is
assumed given in sorted filename order, as produced by
`sorted(glob.glob(...))`. -/
structure Extract where
  date : Int
  rows : List Record
deriving DecidableEq, Repr

/-- Selection of the files whose filename date lies in `[s, e]`
(`main_files` / `restock_files` in app.py) followed by concatenation of
their rows in order (`load_tempostar_data` with `pd.concat`). -/
def loadWindow (files : List Extract) (s e : Int) : List Record :=
  ((files.filter (fun f => decide (s ≤ f.date) && decide (f.date ≤ e))).map
    (fun f => f.rows)).flatten

/-- All rows of every available extract, concatenated in arrival order. -/
def allRecords (files : List Extract) : List Record :=
  (files.map (fun f => f.rows)).flatten

/-- Sales-qualifying rows: if the 更新理由 column is present, keep the rows
whose reason equals 受注取込; if the column is absent, keep every row
(the `else` branch at app.py lines 370-375 / 583-588). -/
def salesRows (hasReason : Bool) (rs : List Record) : List Record :=
  if hasReason then rs.filter (fun r => decide (r.reason = "受注取込")) else rs

/-- 売上個数合計 for one product code: the sum of 増減値 over the
sales-qualifying rows of that code, negated (app.py lines 377-392). -/
def netSold (hasReason : Bool) (rs : List Record) (c : String) : Int :=
  -(((salesRows hasReason rs).filter (fun r => decide (r.code = c))).map
    (fun r => r.delta)).sum

/-- 現在庫 for one product code: `groupby("商品コード")["変動後"].last()`
over the loaded rows — the 変動後 value of the last loaded row of that
code, `0` if the code never occurs (app.py lines 397-418). -/
def lastStock (rs : List Record) (c : String) : Int :=
  match (rs.filter (fun r => decide (r.code = c))).getLast? with
  | some r => r.stockAfter
  | none => 0

/-- The `"last"` aggregation of 商品基本コード within one group. -/
def lastBase (rs : List Record) (c : String) : String :=
  match (rs.filter (fun r => decide (r.code = c))).getLast? with
  | some r => r.baseCode
  | none => ""

/-- One row of the aggregation output. -/
structure AggRow where
  code : String
  baseCode : String
  net : Int
  stock : Int
deriving DecidableEq, Repr

/-- The sales aggregation (app.py lines 377-426): group the
sales-qualifying rows by 商品コード, take 売上個数合計 as the negated sum of
増減値, keep only groups with positive 売上個数合計, and merge in 現在庫
taken over all loaded rows (not only the sales-qualifying ones).  pandas
`groupby` sorts the group keys; the key order is irrelevant to every
property below, and the groups are modelled in first-occurrence order. -/
def aggregate (hasReason : Bool) (rs : List Record) : List AggRow :=
  ((((salesRows hasReason rs).map (fun r => r.code)).dedup).map (fun c =>
    { code := c, baseCode := lastBase (salesRows hasReason rs) c,
      net := netSold hasReason rs c, stock := lastStock rs c })).filter
    (fun a => decide (0 < a.net))

/-- The sum of 売上個数合計 over every row of the aggregation output. -/
def totalNetSold (hasReason : Bool) (rs : List Record) : Int :=
  ((aggregate hasReason rs).map (fun a => a.net)).sum

/-- `period_days = max((end_r - start_r).days + 1, 1)` (app.py line 693). -/
def periodDays (s e : Int) : Int := max (e - s + 1) 1

/-- pandas/numpy `Series.round()`: round half to even (banker's
rounding). -/
def roundHalfEven (q : ℚ) : Int :=
  if Int.fract q < 1/2 then ⌊q⌋
  else if 1/2 < Int.fract q then ⌊q⌋ + 1
  else if ⌊q⌋ % 2 = 0 then ⌊q⌋ else ⌊q⌋ + 1

/-- 発注推奨数 (app.py lines 693-710): 1日平均売上 = 売上個数合計 / period_days,
目標在庫 = 1日平均売上 * target_days, diff = 目標在庫 - 現在庫, negatives
clamped to 0 by `diff.where(diff > 0, 0)`, then `.round().astype(int)`. -/
def orderQty (net wd td stock : Int) : Int :=
  roundHalfEven (max ((net : ℚ) / wd * td - stock) 0)

/-- The restock report rows (app.py lines 594-717): aggregation, the
optional 売上下限 filter, the 現在庫 ≤ max_current_stock filter, the
発注推奨数 computation, and the final `発注推奨数 > 0` filter.  Each output
row is the aggregated row paired with its 発注推奨数. -/
def restockView (hasReason : Bool) (rs : List Record)
    (minSales cap td s e : Int) : List (AggRow × Int) :=
  ((((aggregate hasReason rs).filter
      (fun a => !(decide (0 < minSales)) || decide (minSales ≤ a.net))).filter
      (fun a => decide (a.stock ≤ cap))).map
      (fun a => (a, orderQty a.net (periodDays s e) td a.stock))).filter
    (fun p => decide (0 < p.2))

/-- Normalisation of the submitted sales-report window (app.py lines
283-285): if the start date is strictly after the end date the two are
swapped before being stored. -/
def skuWindow (s e : Int) : Int × Int := if e < s then (e, s) else (s, e)

/-- `dict(zip(keys, values))` over the concatenated image-master rows,
keys and values stripped of surrounding whitespace beforehand
(`load_image_master`, app.py lines 45-63): a later pair overwrites an
earlier one with the same key. -/
def buildImageMap (pairs : List (String × String)) : String → Option String :=
  pairs.foldl (fun m kv => fun k => if k = kv.1.trim then some kv.2.trim else m k)
    (fun _ => none)

/-- The reorder formula exactly as the spec words it:
`recommended_order_qty = max(ceil(target_stock - current_stock), 0)` with
`target_stock = (net_units_sold / window_days) * target_days`. -/
def specOrderQty (net wd td stock : Int) : Int :=
  max ⌈((net : ℚ) / wd * td - stock)⌉ 0

lemma floor_le_roundHalfEven (q : ℚ) : ⌊q⌋ ≤ roundHalfEven q := by
  unfold roundHalfEven; split_ifs <;> omega

lemma roundHalfEven_le_floor_add_one (q : ℚ) :
    roundHalfEven q ≤ ⌊q⌋ + 1 := by
  unfold roundHalfEven; split_ifs <;> omega

lemma roundHalfEven_mono {a b : ℚ} (h : a ≤ b) :
    roundHalfEven a ≤ roundHalfEven b := by
  have hf : ⌊a⌋ ≤ ⌊b⌋ := Int.floor_mono h
  rcases lt_or_eq_of_le hf with hlt | heq
  · calc roundHalfEven a ≤ ⌊a⌋ + 1 := roundHalfEven_le_floor_add_one a
      _ ≤ ⌊b⌋ := by omega
      _ ≤ roundHalfEven b := floor_le_roundHalfEven b
  · have hfr : Int.fract a ≤ Int.fract b := by
      unfold Int.fract
      rw [heq]
      exact sub_le_sub_right h _
    unfold roundHalfEven
    rw [heq]
    split_ifs <;> first | omega | linarith

lemma roundHalfEven_zero : roundHalfEven 0 = 0 := by
  norm_num [roundHalfEven, Int.fract]

/-- C2 (amended): for every aggregated product row, the recommended order
quantity equals `max(round_half_to_even(target_stock - current_stock), 0)`
— the code clamps the gap at zero and applies numpy banker's rounding
instead of the spec's `ceil`. -/
theorem C2_order_qty_round_half_even (net wd td stock : Int) :
    orderQty net wd td stock =
      max (roundHalfEven ((net : ℚ) / wd * td - stock)) 0 := by
  unfold orderQty
  rcases le_total ((net : ℚ) / wd * td - stock) 0 with hle | hge
  · rw [max_eq_right hle, roundHalfEven_zero]
    have h0 : roundHalfEven ((net : ℚ) / wd * td - stock) ≤ 0 := by
      have := roundHalfEven_mono hle; rwa [roundHalfEven_zero] at this
    exact (max_eq_right h0).symm
  · rw [max_eq_left hge]
    have h0 : 0 ≤ roundHalfEven ((net : ℚ) / wd * td - stock) := by
      have := roundHalfEven_mono hge; rwa [roundHalfEven_zero] at this
    exact (max_eq_left h0).symm

/-- C2 counterexample: with `net_units_sold = 1`, a two-day window,
`target_days = 3` and `current_stock = 1` the gap is `1/2`; the code's
`.round()` yields an order quantity of `0`, while the spec's
`max(ceil(gap), 0)` yields `1`. -/
theorem C2_counterexample :
    orderQty 1 (periodDays 1 2) 3 1 = 0 ∧
      specOrderQty 1 (periodDays 1 2) 3 1 = 1 := by
  have hpd : periodDays 1 2 = 2 := by decide
  rw [hpd]
  constructor
  · norm_num [orderQty, roundHalfEven, Int.fract]
  · unfold specOrderQty
    rw [show (((1 : Int) : ℚ) / ((2 : Int) : ℚ) * ((3 : Int) : ℚ) -
        ((1 : Int) : ℚ)) = 1/2 by push_cast; norm_num]
    rw [show ⌈(1/2 : ℚ)⌉ = 1 by rw [Int.ceil_eq_iff] ; norm_num]
    decide

/-- C4: when the 更新理由 column is absent from the loaded extracts, every
loaded row is sales-qualifying (fail-open), so the per-code sales sum runs
over all rows of the code rather than over none. -/
theorem C4_missing_reason_fail_open (rs : List Record) :
    salesRows false rs = rs ∧
      ∀ c, netSold false rs c =
        -((rs.filter (fun r => decide (r.code = c))).map
          (fun r => r.delta)).sum :=
  ⟨rfl, fun _ => rfl⟩

/-- C5: the image map built from the concatenated master rows binds a
(whitespace-trimmed) key to the trimmed path of the **last** row whose
trimmed key equals it — later rows overwrite earlier ones. -/
theorem C5_image_map_last_wins (pairs : List (String × String)) (k : String) :
    buildImageMap pairs k =
      ((pairs.filter (fun kv => decide (kv.1.trim = k))).getLast?).map
        (fun kv => kv.2.trim) := by
  unfold buildImageMap
  induction pairs using List.reverseRecOn with
  | nil => rfl
  | append_singleton l x ih =>
    rw [List.foldl_append, List.foldl_cons, List.foldl_nil, List.filter_append]
    by_cases hx : x.1.trim = k
    · have hfx : List.filter (fun kv => decide (kv.1.trim = k)) [x] = [x] := by
        simp [List.filter, hx]
      rw [hfx, List.getLast?_concat]
      simp [hx]
    · have hfx : List.filter (fun kv => decide (kv.1.trim = k)) [x] = [] := by
        simp [List.filter, hx]
      rw [hfx, List.append_nil]
      show (if k = x.1.trim then some x.2.trim else _) = _
      rw [if_neg (fun h => hx h.symm)]
      exact ih

/-- C6: for a fixed aggregation (net units sold, current stock and window
fixed) the recommended order quantity is monotone non-decreasing in
`target_days`. -/
theorem C6_order_qty_monotone_in_target_days
    (s e net stock td1 td2 : Int) (h1 : td1 ≤ td2) (h2 : 0 ≤ net) :
    orderQty net (periodDays s e) td1 stock ≤
      orderQty net (periodDays s e) td2 stock := by
  unfold orderQty
  apply roundHalfEven_mono
  apply max_le_max _ le_rfl
  apply sub_le_sub_right
  have hwd : (0 : Int) ≤ periodDays s e :=
    le_trans zero_le_one (le_max_right _ _)
  have havg : (0 : ℚ) ≤ (net : ℚ) / (periodDays s e : Int) :=
    div_nonneg (by exact_mod_cast h2) (by exact_mod_cast hwd)
  exact mul_le_mul_of_nonneg_left (by exact_mod_cast h1) havg

theorem C6_witness :
    ((1 : Int) ≤ 2 ∧ (0 : Int) ≤ 1) ∧
      orderQty 1 (periodDays 0 0) 1 0 ≤ orderQty 1 (periodDays 0 0) 2 0 :=
  ⟨⟨by decide, by decide⟩,
    C6_order_qty_monotone_in_target_days 0 0 1 0 1 2 (by decide) (by decide)⟩

/-- C7: `period_days = max((end - start).days + 1, 1)` is at least 1 for
every pair of dates, so the divisor of the 1日平均売上 division is never
zero. -/
theorem C7_period_days_positive (s e : Int) :
    1 ≤ periodDays s e ∧ ((periodDays s e : ℚ) ≠ 0) := by
  have h : 1 ≤ periodDays s e := le_max_right _ _
  exact ⟨h, Int.cast_ne_zero.mpr (by omega)⟩

/-- C10: if the submitted start date is strictly after the submitted end
date, the pair stored for the sales report is the swapped pair, and the
window actually applied always satisfies start ≤ end. -/
theorem C10_sku_window_swapped (s e : Int) :
    (e < s → skuWindow s e = (e, s)) ∧
      (skuWindow s e).1 ≤ (skuWindow s e).2 := by
  unfold skuWindow
  split_ifs with h
  · exact ⟨fun _ => rfl, le_of_lt h⟩
  · exact ⟨fun hc => absurd hc h, le_of_not_lt h⟩

theorem C10_witness :
    ((2 : Int) < 5 → skuWindow 5 2 = (2, 5)) ∧
      (skuWindow 5 2).1 ≤ (skuWindow 5 2).2 :=
  C10_sku_window_swapped 5 2

lemma mem_salesRows {hasReason : Bool} {rs : List Record} {r : Record}
    (h : r ∈ salesRows hasReason rs) : r ∈ rs := by
  unfold salesRows at h
  split_ifs at h
  · exact List.mem_of_mem_filter h
  · exact h

lemma sum_map_split {α : Type} (p : α → Bool) (f : α → Int) (l : List α) :
    ((l.filter p).map f).sum + ((l.filter (fun a => !(p a))).map f).sum =
      (l.map f).sum := by
  induction l with
  | nil => rfl
  | cons a l ih =>
    by_cases h : p a = true
    · simp [List.filter_cons, h]
      omega
    · rw [Bool.not_eq_true] at h
      simp [List.filter_cons, h]
      omega

lemma filter_of_filter {α : Type} (p q : α → Bool) (l : List α)
    (h : ∀ a ∈ l, q a = true → p a = true) :
    (l.filter p).filter q = l.filter q := by
  induction l with
  | nil => rfl
  | cons a l ih =>
    have ih' := ih (fun x hx => h x (List.mem_cons_of_mem _ hx))
    by_cases hq : q a = true
    · have hp := h a (List.mem_cons_self _ _) hq
      simp only [List.filter_cons, hp, hq, if_pos, ih']
    · rw [Bool.not_eq_true] at hq
      by_cases hp : p a = true
      · simp only [List.filter_cons, hp, hq, if_pos, if_neg, Bool.false_eq_true,
          not_false_eq_true, ih']
      · rw [Bool.not_eq_true] at hp
        simp only [List.filter_cons, hp, hq, if_neg, Bool.false_eq_true,
          not_false_eq_true, ih']

lemma sum_map_neg' {α : Type} (g : α → Int) (l : List α) :
    (l.map (fun a => -(g a))).sum = -((l.map g).sum) := by
  induction l with
  | nil => rfl
  | cons a l ih => simp only [List.map_cons, List.sum_cons, ih]; omega

/-- Partitioning a sum over rows by a covering, duplicate-free list of
group keys. -/
lemma sum_by_code (ks : List String) (rs : List Record) (f : Record → Int)
    (hnd : ks.Nodup) (hcov : ∀ r ∈ rs, r.code ∈ ks) :
    (ks.map (fun c =>
      ((rs.filter (fun r => decide (r.code = c))).map f).sum)).sum =
      (rs.map f).sum := by
  induction ks generalizing rs with
  | nil =>
    cases rs with
    | nil => rfl
    | cons r rest => exact absurd (hcov r (List.mem_cons_self _ _)) (by simp)
  | cons c ks ih =>
    rw [List.map_cons, List.sum_cons]
    have hc : c ∉ ks := (List.nodup_cons.mp hnd).1
    have hrest : ks.map (fun c' =>
        ((rs.filter (fun r => decide (r.code = c'))).map f).sum) =
        ks.map (fun c' =>
          (((rs.filter (fun r => !(decide (r.code = c)))).filter
            (fun r => decide (r.code = c'))).map f).sum) := by
      apply List.map_congr_left
      intro c' hc'
      have hne : c' ≠ c := fun hh => hc (hh ▸ hc')
      rw [filter_of_filter]
      intro r _ hr
      have : r.code = c' := of_decide_eq_true hr
      simp [this, hne]
    rw [hrest, ih (rs.filter (fun r => !(decide (r.code = c))))
      ((List.nodup_cons.mp hnd).2)
      (fun r hr => by
        have h1 := List.mem_filter.mp hr
        have h2 : r.code ≠ c := by
          have h3 := h1.2
          simp only [Bool.not_eq_true'] at h3
          exact of_decide_eq_false h3
        rcases List.mem_cons.mp (hcov r h1.1) with h | h
        · exact absurd h h2
        · exact h)]
    exact sum_map_split (fun r => decide (r.code = c)) f rs

lemma filter_map_net (keys : List String) (mk : String → AggRow) :
    (((keys.map mk).filter (fun a => decide (0 < a.net))).map (fun a => a.net)) =
      ((keys.filter (fun c => decide (0 < (mk c).net))).map
        (fun c => (mk c).net)) := by
  induction keys with
  | nil => rfl
  | cons c ks ih =>
    by_cases h : (0 : Int) < (mk c).net <;>
      simp [List.map_cons, List.filter_cons, h, ih]

def c3Files : List Extract :=
  [⟨1, [⟨"A", "", "", "", "", -3, 0, ""⟩, ⟨"B", "", "", "", "", 2, 0, ""⟩]⟩]

/-- C3 counterexample: one in-window extract holding A with 増減値 -3 and B
with 増減値 +2 (no 更新理由 column, so both rows qualify).  B's net movement
is -2 ≤ 0, so B is dropped from the result: the result's total is 3 while
the negated sum of 増減値 over sales-qualifying in-window rows is 1. -/
theorem C3_counterexample :
    totalNetSold false (loadWindow c3Files 1 1) = 3 ∧
      -((salesRows false (loadWindow c3Files 1 1)).map (fun r => r.delta)).sum
          = 1 ∧
      totalNetSold false (loadWindow c3Files 1 1) ≠
        -((salesRows false (loadWindow c3Files 1 1)).map
          (fun r => r.delta)).sum :=
  ⟨by decide, by decide, by decide⟩

/-- C3 (amended): the sum of 売上個数合計 over all rows of the aggregation
result equals the negated sum of 増減値 over the sales-qualifying in-window
records **of those product codes whose net units sold is positive**; codes
with non-positive net movement are dropped from the result, so their
records are excluded from the balance. -/
theorem C3_total_net_sold (hasReason : Bool) (files : List Extract)
    (s e : Int) :
    totalNetSold hasReason (loadWindow files s e) =
      -(((salesRows hasReason (loadWindow files s e)).filter
          (fun r => decide
            (0 < netSold hasReason (loadWindow files s e) r.code))).map
        (fun r => r.delta)).sum := by
  set rs := loadWindow files s e with hrs
  unfold totalNetSold aggregate
  rw [filter_map_net]
  dsimp only
  have hneg : ∀ (ks : List String),
      (ks.map (fun c => netSold hasReason rs c)).sum =
        -((ks.map (fun c =>
          (((salesRows hasReason rs).filter
            (fun r => decide (r.code = c))).map (fun r => r.delta)).sum)).sum) := by
    intro ks
    induction ks with
    | nil => rfl
    | cons c ks ih =>
      simp only [List.map_cons, List.sum_cons, ih]
      unfold netSold
      omega
  rw [hneg]
  congr 1
  have hkeys :
      ((((salesRows hasReason rs).map (fun r => r.code)).dedup).filter
          (fun c => decide (0 < netSold hasReason rs c))).map (fun c =>
        (((salesRows hasReason rs).filter
          (fun r => decide (r.code = c))).map (fun r => r.delta)).sum) =
      ((((salesRows hasReason rs).map (fun r => r.code)).dedup).filter
          (fun c => decide (0 < netSold hasReason rs c))).map (fun c =>
        ((((salesRows hasReason rs).filter
            (fun r => decide (0 < netSold hasReason rs r.code))).filter
          (fun r => decide (r.code = c))).map (fun r => r.delta)).sum) := by
    apply List.map_congr_left
    intro c hc
    have hcP : (0 : Int) < netSold hasReason rs c :=
      of_decide_eq_true (List.mem_filter.mp hc).2
    rw [filter_of_filter]
    intro r _ hr
    have hrc : r.code = c := of_decide_eq_true hr
    rw [hrc]
    exact decide_eq_true hcP
  rw [hkeys]
  apply sum_by_code
  · exact (List.nodup_dedup _).filter _
  · intro r hr
    have h1 := List.mem_filter.mp hr
    exact List.mem_filter.mpr
      ⟨List.mem_dedup.mpr (List.mem_map_of_mem _ h1.1), h1.2⟩

def c1Files : List Extract :=
  [⟨1, [⟨"A", "B1", "", "", "", -1, 10, "受注取込"⟩]⟩,
   ⟨2, [⟨"A", "B1", "", "", "", 0, 20, "入庫"⟩]⟩]

/-- C1 counterexample: with extracts for days 1 and 2 and the window
[1, 1], product A appears in the aggregation output with 現在庫 10 — the
last 変動後 among the **loaded** (in-window) rows — while the
chronologically last record of A across the entire available history has
変動後 20. -/
theorem C1_counterexample :
    (aggregate false (loadWindow c1Files 1 1)).map (fun a => (a.code, a.stock))
        = [("A", 10)] ∧
      lastStock (allRecords c1Files) "A" = 20 :=
  ⟨by decide, by decide⟩

/-- C1 (amended): for every row of the aggregation output, 現在庫 equals
the 変動後 of the chronologically last record of that code **within the
selected [start, end] file window** — extracts outside the window are never
loaded, so the stock does not reflect the full available history. -/
theorem C1_current_stock_window_last (hasReason : Bool)
    (files : List Extract) (s e : Int) (a : AggRow)
    (ha : a ∈ aggregate hasReason (loadWindow files s e)) :
    ∃ r, ((loadWindow files s e).filter
        (fun x => decide (x.code = a.code))).getLast? = some r ∧
      a.stock = r.stockAfter := by
  set rs := loadWindow files s e with hrs
  unfold aggregate at ha
  have h1 := List.mem_filter.mp ha
  obtain ⟨c, hc, hmk⟩ := List.mem_map.mp h1.1
  obtain ⟨r0, hr0, hr0c⟩ := List.mem_map.mp (List.mem_dedup.mp hc)
  have hcode : a.code = c := by rw [← hmk]
  have hstock : a.stock = lastStock rs c := by rw [← hmk]
  have hmem : r0 ∈ rs.filter (fun x => decide (x.code = a.code)) :=
    List.mem_filter.mpr
      ⟨mem_salesRows hr0, by rw [hcode, ← hr0c]; exact decide_eq_true rfl⟩
  cases hlast : (rs.filter (fun x => decide (x.code = a.code))).getLast? with
  | none =>
    rw [List.getLast?_eq_none_iff] at hlast
    rw [hlast] at hmem
    exact absurd hmem (List.not_mem_nil _)
  | some r =>
    refine ⟨r, rfl, ?_⟩
    rw [hcode] at hlast
    rw [hstock]
    unfold lastStock
    rw [hlast]

theorem C1_witness :
    ((⟨"A", "B1", 1, 10⟩ : AggRow) ∈
        aggregate false (loadWindow c1Files 1 1)) ∧
      ∃ r, ((loadWindow c1Files 1 1).filter
          (fun x => decide
            (x.code = (⟨"A", "B1", 1, 10⟩ : AggRow).code))).getLast?
              = some r ∧
        (⟨"A", "B1", 1, 10⟩ : AggRow).stock = r.stockAfter := by
  have hm : (⟨"A", "B1", 1, 10⟩ : AggRow) ∈
      aggregate false (loadWindow c1Files 1 1) := by decide
  exact ⟨hm, C1_current_stock_window_last false c1Files 1 1 _ hm⟩

/-- C9: every row emitted in the restock view satisfies
現在庫 ≤ max_current_stock (the cap defaults to 999999 in the sidebar
state, which makes the filter vacuous until the user lowers it). -/
theorem C9_restock_stock_cap (hasReason : Bool) (rs : List Record)
    (minSales cap td s e : Int) (p : AggRow × Int)
    (hp : p ∈ restockView hasReason rs minSales cap td s e) :
    p.1.stock ≤ cap := by
  unfold restockView at hp
  have h1 := (List.mem_filter.mp hp).1
  obtain ⟨a, ha, hpa⟩ := List.mem_map.mp h1
  have h2 : a.stock ≤ cap := of_decide_eq_true (List.mem_filter.mp ha).2
  rw [← hpa]
  exact h2

def c9Rows : List Record := [⟨"A", "B", "", "", "", -10, 2, ""⟩]

theorem C9_witness :
    (((⟨"A", "B", 10, 2⟩ : AggRow), (298 : Int)) ∈
        restockView false c9Rows 0 999999 30 1 1) ∧
      ((⟨"A", "B", 10, 2⟩ : AggRow), (298 : Int)).1.stock ≤ 999999 := by
  have hm : ((⟨"A", "B", 10, 2⟩ : AggRow), (298 : Int)) ∈
      restockView false c9Rows 0 999999 30 1 1 := by
    have hagg : aggregate false c9Rows = [⟨"A", "B", 10, 2⟩] := by decide
    have hq : orderQty 10 (periodDays 1 1) 30 2 = 298 := by
      rw [show periodDays 1 1 = 1 from by decide]
      norm_num [orderQty, roundHalfEven, Int.fract]
    unfold restockView
    rw [hagg]
    simp [List.filter_cons, hq]
  exact ⟨hm, C9_restock_stock_cap false c9Rows 0 999999 30 1 1 _ hm⟩

/-- The metacharacters of Python regular expressions. -/
def isRegexMeta (c : Char) : Bool :=
  c == '.' || c == '^' || c == '$' || c == '*' || c == '+' || c == '?' ||
    c == '\x7b' || c == '\x7d' || c == '[' || c == ']' || c == '\\' ||
    c == '|' || c == '(' || c == ')'

/-- One token of the regex fragment modelled here: an ordinary character or
the `.` wildcard.  `pandas.Series.str.contains(kw, case=False)` hands `kw`
to `re.search` with `re.IGNORECASE` and the default `regex=True`; the model
covers exactly the patterns built from ordinary characters and `.`, and the
theorems below instantiate it only on such patterns. -/
inductive RTok where
  | dot : RTok
  | lit : Char → RTok
deriving DecidableEq, Repr

def parsePat (s : String) : List RTok :=
  s.data.map (fun c => if c = '.' then RTok.dot else RTok.lit c)

/-- A single-character match under `re.IGNORECASE`. -/
def tokMatches (t : RTok) (c : Char) : Bool :=
  match t with
  | RTok.dot => true
  | RTok.lit d => d.toLower == c.toLower

/-- Anchored match of the whole pattern at the start of the text. -/
def matchHere : List RTok → List Char → Bool
  | [], _ => true
  | _ :: _, [] => false
  | t :: ts, c :: cs => tokMatches t c && matchHere ts cs

/-- `re.search`: try the anchored match at every start position. -/
def reSearch (ts : List RTok) : List Char → Bool
  | [] => matchHere ts []
  | c :: cs => matchHere ts (c :: cs) || reSearch ts cs

def rowMatchesKeyword (kw : String) (r : Record) : Bool :=
  reSearch (parsePat kw) r.code.data ||
    reSearch (parsePat kw) r.baseCode.data ||
    reSearch (parsePat kw) r.name.data

/-- The keyword filter (app.py lines 315-323 / 574-581): a non-empty
keyword keeps the rows whose 商品コード, 商品基本コード or 商品名 it matches
(all three columns assumed present); an empty keyword disables the
filter. -/
def keywordFilter (kw : String) (rs : List Record) : List Record :=
  if kw = "" then rs else rs.filter (rowMatchesKeyword kw)

/-- Case-folded character list of a string, for the case-insensitive
substring reading of the spec. -/
def lowerStr (s : String) : List Char := s.data.map Char.toLower

/-- The keyword test exactly as the spec words it: the keyword occurs as a
case-insensitive substring of 商品コード, 商品基本コード or 商品名. -/
def specKeywordHit (kw : String) (r : Record) : Bool :=
  decide (lowerStr kw <:+: lowerStr r.code) ||
    decide (lowerStr kw <:+: lowerStr r.baseCode) ||
    decide (lowerStr kw <:+: lowerStr r.name)

/-- C8 counterexample: the keyword reaches pandas `str.contains` with the
default `regex=True`, so the keyword `"."` acts as a wildcard: the row with
商品コード "AB" is retained by the filter although `"."` does not occur as a
substring of any of the three fields. -/
theorem C8_counterexample :
    ("." ≠ "") ∧
      keywordFilter "." [⟨"AB", "", "", "", "", 0, 0, ""⟩] =
        [⟨"AB", "", "", "", "", 0, 0, ""⟩] ∧
      specKeywordHit "." ⟨"AB", "", "", "", "", 0, 0, ""⟩ = false :=
  ⟨by decide, by decide, by decide⟩

lemma matchHere_lits (l : List Char) (cs : List Char) :
    matchHere (l.map RTok.lit) cs =
      (l.map Char.toLower).isPrefixOf (cs.map Char.toLower) := by
  induction l generalizing cs with
  | nil => simp [matchHere]
  | cons a l ih =>
    cases cs with
    | nil => simp [matchHere, List.isPrefixOf]
    | cons c cs => simp [matchHere, tokMatches, List.isPrefixOf, ih]

lemma reSearch_lits (l : List Char) (cs : List Char) :
    reSearch (l.map RTok.lit) cs = true ↔
      (l.map Char.toLower) <:+: (cs.map Char.toLower) := by
  induction cs with
  | nil =>
    simp [reSearch, matchHere_lits]
  | cons c cs ih =>
    simp only [reSearch, Bool.or_eq_true, matchHere_lits, ih, List.map_cons,
      List.infix_cons_iff, List.isPrefixOf_iff_prefix]

lemma reSearch_lits_eq (l : List Char) (cs : List Char) :
    reSearch (l.map RTok.lit) cs =
      decide ((l.map Char.toLower) <:+: (cs.map Char.toLower)) := by
  cases h : reSearch (l.map RTok.lit) cs with
  | false =>
    symm
    apply decide_eq_false
    intro hcontra
    have := (reSearch_lits l cs).mpr hcontra
    rw [h] at this
    exact Bool.false_ne_true this
  | true =>
    symm
    exact decide_eq_true ((reSearch_lits l cs).mp h)

lemma parsePat_of_no_meta (kw : String)
    (h : kw.data.all (fun c => !(isRegexMeta c)) = true) :
    parsePat kw = kw.data.map RTok.lit := by
  unfold parsePat
  apply List.map_congr_left
  intro c hc
  have hmeta := List.all_eq_true.mp h c hc
  have hdot : c ≠ '.' := by
    intro hcc
    rw [hcc] at hmeta
    simp [isRegexMeta] at hmeta
  rw [if_neg hdot]

/-- C8 (amended): for a non-empty keyword containing no Python regex
metacharacter, a loaded row is retained by the keyword filter iff the
keyword occurs as a case-insensitive substring of 商品コード, 商品基本コード
or 商品名 (logical OR); in general the keyword is interpreted as a regular
expression (`str.contains` defaults to `regex=True`), not as a literal
substring. -/
theorem C8_keyword_filter_substring (kw : String) (rs : List Record)
    (r : Record) (h1 : kw ≠ "")
    (h2 : kw.data.all (fun c => !(isRegexMeta c)) = true) :
    r ∈ keywordFilter kw rs ↔ r ∈ rs ∧ specKeywordHit kw r = true := by
  have hpred : rowMatchesKeyword kw r = specKeywordHit kw r := by
    unfold rowMatchesKeyword specKeywordHit lowerStr
    rw [parsePat_of_no_meta kw h2, reSearch_lits_eq, reSearch_lits_eq,
      reSearch_lits_eq]
  unfold keywordFilter
  rw [if_neg h1, List.mem_filter, hpred]

theorem C8_witness :
    ("ab" ≠ "" ∧ "ab".data.all (fun c => !(isRegexMeta c)) = true) ∧
      ((⟨"XAB", "", "", "", "", 0, 0, ""⟩ : Record) ∈
          keywordFilter "ab" [⟨"XAB", "", "", "", "", 0, 0, ""⟩] ↔
        (⟨"XAB", "", "", "", "", 0, 0, ""⟩ : Record) ∈
            [(⟨"XAB", "", "", "", "", 0, 0, ""⟩ : Record)] ∧
          specKeywordHit "ab" ⟨"XAB", "", "", "", "", 0, 0, ""⟩ = true) :=
  ⟨⟨by decide, by decide⟩,
    C8_keyword_filter_substring "ab" _ _ (by decide) (by decide)⟩

